import Mathlib

/-!
Verification development for the syncy job pipeline and trim-decision engine.

Time values are modelled as rationals (`ℚ`); the source manipulates numbers
only through comparison, `min`/`max`, addition, subtraction, multiplication
and guarded division, so the rational embedding is exact on rational inputs.
Fallible operations are embedded as `Except ErrorCode _` / `Option ErrorCode`
values; the thrown `AppError` codes become the `ErrorCode` inductive.
-/

namespace Syncy

/-! ### Data model (packages/shared/src/index.ts) -/

/-- The `TrimStrategy` enum of the shared schema. -/
inductive TrimStrategy where
  | outro
  | intro
  | intro_outro
  | fallback_low_density
deriving DecidableEq, Repr

/-- The `ErrorCode` enum of the shared schema (`AppError.code` values). -/
inductive ErrorCode where
  | AUDIO_LONGER_THAN_VIDEO
  | NO_SYNC_SAFE_CUT
  | INVALID_OVERRIDE_RANGE
  | DEPENDENCY_MISSING
  | ANALYSIS_FAILED
  | RENDER_FAILED
  | JOB_NOT_FOUND
  | MODEL_MISSING
deriving DecidableEq, Repr

/-- The `JobStatus` enum of the shared schema. -/
inductive JobStatus where
  | queued
  | analyzing
  | awaiting_review
  | rendering
  | completed
  | failed
deriving DecidableEq, Repr

/-- `TimeRange` record: `{ startSec, endSec }`. -/
structure TimeRange where
  startSec : ℚ
  endSec : ℚ
deriving DecidableEq, Repr

/-- `LowInfoRegion`: a time range plus a density score. TypeScript passes these
structurally where a `TimeRange` is expected, modelled by `extends`. -/
structure LowInfoRegion extends TimeRange where
  score : ℚ
deriving DecidableEq, Repr

/-- `AnalysisResult` of the shared schema. The decision engine reads only the
range fields of `speechRegions` (the transcript text and confidence of a
speech region are never consulted), so speech regions are embedded as their
time ranges. -/
structure AnalysisResult where
  speechRegions : List TimeRange
  silenceRegions : List TimeRange
  sceneCutsSec : List ℚ
  lowInfoRegions : List LowInfoRegion
  warnings : List String
deriving DecidableEq, Repr

/-- `TrimDecision` of the shared schema. -/
structure TrimDecision where
  keepRange : TimeRange
  trimNeededSec : ℚ
  strategy : TrimStrategy
  confidence : ℚ
  reasoning : List String
  protectedRanges : List TimeRange
deriving DecidableEq, Repr

/-! ### Range algebra (src/apps/api/src/decision/range.ts) -/

/-- `normalizeRange`: swap the endpoints when they are reversed. -/
def normalizeRange (range : TimeRange) : TimeRange :=
  if range.startSec ≤ range.endSec then range
  else { startSec := range.endSec, endSec := range.startSec }

/-- `rangeLength`: clamped-to-zero length of a range. -/
def rangeLength (range : TimeRange) : ℚ :=
  max 0 (range.endSec - range.startSec)

/-- `overlaps`: half-open interval overlap test. -/
def overlaps (a b : TimeRange) : Prop :=
  a.startSec < b.endSec ∧ b.startSec < a.endSec

instance (a b : TimeRange) : Decidable (overlaps a b) :=
  inferInstanceAs (Decidable (_ ∧ _))

/-- `intersectionLength`: length of the intersection of two ranges,
`0` when they do not overlap. -/
def intersectionLength (a b : TimeRange) : ℚ :=
  if overlaps a b then min a.endSec b.endSec - max a.startSec b.startSec
  else 0

/-- `expandRange`: pad a range on both sides and clamp it to `[0, durationSec]`. -/
def expandRange (range : TimeRange) (paddingSec durationSec : ℚ) : TimeRange :=
  { startSec := max 0 (range.startSec - paddingSec)
    endSec := min durationSec (range.endSec + paddingSec) }

/-- The sort order used by `mergeRanges` (`sort((a, b) => a.startSec - b.startSec)`):
ascending by `startSec`. JavaScript `Array.prototype.sort` is a stable sort and
the output of a stable sort is unique, so it is embedded as the (stable,
kernel-computable) insertion sort on this relation. -/
def startLE (a b : TimeRange) : Prop :=
  a.startSec ≤ b.startSec

instance : DecidableRel startLE :=
  fun a b => inferInstanceAs (Decidable (a.startSec ≤ b.startSec))

instance : IsTotal TimeRange startLE :=
  ⟨fun a b => le_total a.startSec b.startSec⟩

instance : IsTrans TimeRange startLE :=
  ⟨fun _ _ _ hab hbc => le_trans hab hbc⟩

/-- The body of the merge loop of `mergeRanges`: `current` is the accumulator
range, the list holds the remaining sorted candidates; `merged.push` becomes
list cons. -/
def mergeLoop (current : TimeRange) : List TimeRange → List TimeRange
  | [] => [current]
  | candidate :: rest =>
    if candidate.startSec ≤ current.endSec then
      mergeLoop { startSec := current.startSec
                  endSec := max current.endSec candidate.endSec } rest
    else
      current :: mergeLoop candidate rest

/-- The normalize / sort / drop-degenerate preprocessing of `mergeRanges`. -/
def sortedRanges (ranges : List TimeRange) : List TimeRange :=
  ((ranges.map normalizeRange).insertionSort startLE).filter
    (fun range => decide (range.startSec < range.endSec))

/-- `mergeRanges`: normalize, sort by start, drop degenerate ranges, then fold
overlapping-or-touching neighbours together. -/
def mergeRanges (ranges : List TimeRange) : List TimeRange :=
  match sortedRanges ranges with
  | [] => []
  | first :: rest => mergeLoop first rest

/-- `totalOverlapLength`: summed intersection of one range with a set of ranges. -/
def totalOverlapLength (range : TimeRange) (protectedRanges : List TimeRange) : ℚ :=
  (protectedRanges.map (fun p => intersectionLength range p)).sum

example : mergeRanges [⟨5, 7⟩, ⟨1, 3⟩, ⟨2, 4⟩] = [⟨1, 4⟩, ⟨5, 7⟩] := by decide

example : totalOverlapLength ⟨8, 10⟩ [⟨7.05, 10⟩] = 2 := by norm_num [totalOverlapLength,
  intersectionLength, overlaps]

/-! ### Decision engine (src/unnamed/part_001, `decision/engine.ts`) -/

/-- JavaScript `Number.prototype.toFixed(prec)` on a rational: round to `prec`
decimal places, ties toward positive infinity, rendered with the fraction part
zero-padded. Only used to build the human-readable reasoning strings. -/
def toFixedQ (prec : ℕ) (q : ℚ) : String :=
  let scaled : ℤ := round (q * (10 : ℚ) ^ prec)
  let sign := if scaled < 0 then "-" else ""
  let a := scaled.natAbs
  let whole := a / 10 ^ prec
  let frac := a % 10 ^ prec
  let fracStr := toString frac
  let padded := String.mk (List.replicate (prec - fracStr.length) '0') ++ fracStr
  if prec = 0 then sign ++ toString whole
  else sign ++ toString whole ++ "." ++ padded

def SPEECH_PADDING_SEC : ℚ := 35 / 100

def OVERLAP_TOLERANCE_SEC : ℚ := 2 / 100

/-- `DecisionInput` of the decision engine. -/
structure DecisionInput where
  videoDurationSec : ℚ
  targetDurationSec : ℚ
  analysis : AnalysisResult
  hasReplacementAudio : Bool
deriving DecidableEq, Repr

/-- The internal `Candidate` record of the decision engine. -/
structure Candidate where
  strategy : TrimStrategy
  keepRange : TimeRange
  trimRanges : List TimeRange
  reasoning : List String
deriving DecidableEq, Repr

/-- `overlapWithRanges`: total overlap of a list of trim ranges with a range set. -/
def overlapWithRanges (trimRanges ranges : List TimeRange) : ℚ :=
  (trimRanges.map (fun trimRange => totalOverlapLength trimRange ranges)).sum

/-- `silenceCoverage`: fraction of the trimmed duration covered by silence
regions, clamped to `1`; defined as `1` for an empty trim. -/
def silenceCoverage (trimRanges silenceRanges : List TimeRange) : ℚ :=
  let trimLength := (trimRanges.map rangeLength).sum
  if trimLength = 0 then 1
  else
    let silenceOverlap :=
      (trimRanges.map (fun trimRange =>
        (silenceRanges.map (fun silenceRange =>
          intersectionLength trimRange silenceRange)).sum)).sum
    min 1 (silenceOverlap / trimLength)

/-- `hasInvalidRange`: some range in the list is degenerate. -/
def hasInvalidRange (ranges : List TimeRange) : Bool :=
  ranges.any (fun range => decide (range.endSec ≤ range.startSec))

/-- `buildCandidates`: the ordered strategy candidates (outro; then intro and
intro_outro only without replacement audio), with degenerate-trim candidates
filtered out. -/
def buildCandidates (videoDurationSec targetDurationSec : ℚ)
    (hasReplacementAudio : Bool) : List Candidate :=
  let trimNeededSec := max 0 (videoDurationSec - targetDurationSec)
  if trimNeededSec ≤ 0 then
    [{ strategy := .outro
       keepRange := { startSec := 0, endSec := videoDurationSec }
       trimRanges := []
       reasoning := ["No trimming required because video already matches target duration."] }]
  else
    let outroTrim : TimeRange :=
      { startSec := max 0 targetDurationSec, endSec := videoDurationSec }
    let base : List Candidate :=
      [{ strategy := .outro
         keepRange := { startSec := 0, endSec := targetDurationSec }
         trimRanges := [outroTrim]
         reasoning := ["Preferred outro trim candidate selected first."] }]
    let candidates :=
      if hasReplacementAudio then base
      else
        let introTrim : TimeRange := { startSec := 0, endSec := trimNeededSec }
        let introShare := trimNeededSec / 2
        let outroShare := trimNeededSec - introShare
        base ++
          [{ strategy := .intro
             keepRange := { startSec := trimNeededSec, endSec := videoDurationSec }
             trimRanges := [introTrim]
             reasoning := ["No safe outro candidate found; evaluating intro trim."] },
           { strategy := .intro_outro
             keepRange := { startSec := introShare
                            endSec := videoDurationSec - outroShare }
             trimRanges :=
               [{ startSec := 0, endSec := introShare },
                { startSec := videoDurationSec - outroShare, endSec := videoDurationSec }]
             reasoning := ["Balancing trim between intro and outro as secondary fallback."] }]
    candidates.filter (fun candidate => !hasInvalidRange candidate.trimRanges)

/-- `strategyBaseConfidence` (the `default` arm of the source switch is
unreachable: the four strategy values are exhaustive). -/
def strategyBaseConfidence : TrimStrategy → ℚ
  | .outro => 88 / 100
  | .intro => 78 / 100
  | .intro_outro => 72 / 100
  | .fallback_low_density => 62 / 100

/-- The per-edge score of `fallbackCandidate`: negated low-information contact.
The `overlaps` guard of the source is kept verbatim (it is redundant only
because `intersectionLength` is zero on non-overlapping ranges). -/
def scoreFor (lowInfoRegions : List LowInfoRegion) (range : TimeRange) : ℚ :=
  -(lowInfoRegions.map (fun lowInfo =>
      if overlaps range lowInfo.toTimeRange then
        intersectionLength range lowInfo.toTimeRange * lowInfo.score
      else 0)).sum

/-- `fallbackCandidate`: choose between the pure intro trim and the pure outro
trim by comparing their negated low-information contact scores
(`pickOutro = outroScore <= introScore`). -/
def fallbackCandidate (videoDurationSec targetDurationSec : ℚ)
    (analysis : AnalysisResult) : Candidate :=
  let trimNeededSec := max 0 (videoDurationSec - targetDurationSec)
  let introTrim : TimeRange := { startSec := 0, endSec := trimNeededSec }
  let outroTrim : TimeRange := { startSec := targetDurationSec, endSec := videoDurationSec }
  let introScore := scoreFor analysis.lowInfoRegions introTrim
  let outroScore := scoreFor analysis.lowInfoRegions outroTrim
  let pickOutro := outroScore ≤ introScore
  { strategy := .fallback_low_density
    keepRange :=
      if pickOutro then { startSec := 0, endSec := targetDurationSec }
      else { startSec := trimNeededSec, endSec := videoDurationSec }
    trimRanges := [if pickOutro then outroTrim else introTrim]
    reasoning :=
      ["Fallback selected by lowest semantic-density edge region when rule-based candidates were blocked."] }

/-- `withinDuration`: keep range inside `[0, durationSec]` with positive length. -/
def withinDuration (range : TimeRange) (durationSec : ℚ) : Prop :=
  0 ≤ range.startSec ∧ range.endSec ≤ durationSec ∧ range.startSec < range.endSec

instance (range : TimeRange) (d : ℚ) : Decidable (withinDuration range d) :=
  inferInstanceAs (Decidable (_ ∧ _ ∧ _))

/-- The candidate loop of `computeTrimDecision`: skip a candidate whose trim
ranges overlap protected speech beyond tolerance or whose keep range is not
within the video; accept the first remaining one. -/
def acceptCandidate (input : DecisionInput) (trimNeededSec : ℚ)
    (protectedRanges : List TimeRange) : List Candidate → Option TrimDecision
  | [] => none
  | candidate :: rest =>
    let speechOverlap := overlapWithRanges candidate.trimRanges protectedRanges
    if OVERLAP_TOLERANCE_SEC < speechOverlap then
      acceptCandidate input trimNeededSec protectedRanges rest
    else
      let candidateTrimLength := (candidate.trimRanges.map rangeLength).sum
      let silenceScore := silenceCoverage candidate.trimRanges input.analysis.silenceRegions
      let overlapShare := if 0 < candidateTrimLength then speechOverlap / candidateTrimLength else 0
      let confidence :=
        max 0 (min 1
          (strategyBaseConfidence candidate.strategy + silenceScore * (10 / 100)
            - overlapShare * (50 / 100)))
      let reasoning :=
        candidate.reasoning ++
          ["Speech overlap across trim regions is " ++ toFixedQ 2 speechOverlap ++ "s.",
           "Silence coverage of trim regions is " ++ toFixedQ 1 (silenceScore * 100) ++ "%."]
      if ¬ withinDuration candidate.keepRange input.videoDurationSec then
        acceptCandidate input trimNeededSec protectedRanges rest
      else
        some
          { keepRange := candidate.keepRange
            trimNeededSec := max 0 trimNeededSec
            strategy := candidate.strategy
            confidence := confidence
            reasoning := reasoning
            protectedRanges := protectedRanges }

/-- The merged, padded protected speech ranges built by `computeTrimDecision`. -/
def protectedRangesOf (input : DecisionInput) : List TimeRange :=
  mergeRanges (input.analysis.speechRegions.map (fun region =>
    expandRange region SPEECH_PADDING_SEC input.videoDurationSec))

/-- `computeTrimDecision`: the decision engine. A thrown `AppError` is embedded
as `Except.error` of its code. -/
def computeTrimDecision (input : DecisionInput) : Except ErrorCode TrimDecision :=
  let trimNeededSec := input.videoDurationSec - input.targetDurationSec
  if trimNeededSec < -(1 / 100) then
    .error .AUDIO_LONGER_THAN_VIDEO
  else
    let protectedRanges := protectedRangesOf input
    let candidates :=
      buildCandidates input.videoDurationSec input.targetDurationSec input.hasReplacementAudio
    match acceptCandidate input trimNeededSec protectedRanges candidates with
    | some decision => .ok decision
    | none =>
      if input.hasReplacementAudio then
        .error .NO_SYNC_SAFE_CUT
      else
        let fallback :=
          fallbackCandidate input.videoDurationSec input.targetDurationSec input.analysis
        let speechOverlap := overlapWithRanges fallback.trimRanges protectedRanges
        let fallbackConfidence :=
          max (40 / 100) (62 / 100 - speechOverlap / max 1 trimNeededSec)
        .ok
          { keepRange := fallback.keepRange
            trimNeededSec := max 0 trimNeededSec
            strategy := fallback.strategy
            confidence := min 1 fallbackConfidence
            reasoning :=
              fallback.reasoning ++
                ["Fallback overlap with protected speech is " ++ toFixedQ 2 speechOverlap ++ "s."]
            protectedRanges := protectedRanges }

/-! ### Override validator (src/apps/api/src/override.ts) -/

/-- JavaScript truthiness of an optional string (`undefined` and `""` are falsy). -/
def strTruthy : Option String → Bool
  | none => false
  | some s => !s.isEmpty

/-- The fields of `JobRecord` read by `validateOverrideRange` (the remaining
fields of the record are never consulted by it). -/
structure JobRecordView where
  videoDurationSec : ℚ
  targetDurationSec : ℚ
  replacementAudioPath : Option String
deriving DecidableEq, Repr

/-- `validateOverrideRange`: `none` when the range is accepted, otherwise the
code of the first `AppError` thrown. -/
def validateOverrideRange (job : JobRecordView) (keepRange : TimeRange) :
    Option ErrorCode :=
  if keepRange.startSec < 0 ∨ job.videoDurationSec < keepRange.endSec then
    some .INVALID_OVERRIDE_RANGE
  else if keepRange.endSec ≤ keepRange.startSec then
    some .INVALID_OVERRIDE_RANGE
  else if 1 / 4 < |keepRange.endSec - keepRange.startSec - job.targetDurationSec| then
    some .INVALID_OVERRIDE_RANGE
  else if strTruthy job.replacementAudioPath ∧ 1 / 1000 < keepRange.startSec then
    some .NO_SYNC_SAFE_CUT
  else
    none

/-! ### Render orchestrator (src/unnamed/part_000, `render.ts`) -/

/-- The fields of `RenderOptions` consulted by the control flow of
`renderVideo` (paths and callbacks drive only the external process). -/
structure RenderOptions where
  replacementAudioPath : Option String
  keepRange : TimeRange
  videoDurationSec : ℚ
  targetDurationSec : ℚ
deriving DecidableEq, Repr

/-- The observable outcome of the external encoder invocation plus the
re-probe of the produced file: exit code, whether the output file exists, and
the probed duration of the output. `renderVideo` is embedded as a function of
the options and this outcome. -/
structure EncoderRun where
  exitCode : ℤ
  outputExists : Bool
  probedDurationSec : ℚ
deriving DecidableEq, Repr

/-- The successful result of `renderVideo` (the output path is not modelled). -/
structure RenderResult where
  durationSec : ℚ
deriving DecidableEq, Repr

/-- `renderVideo`: bounds checks, the sync-safety guard (before the encoder is
invoked), then encoder failure / missing output / output-duration tolerance
checks. The ffmpeg argument construction (stream copy vs. re-encode) does not
affect the validation control flow and is not modelled. -/
def renderVideo (options : RenderOptions) (run : EncoderRun) :
    Except ErrorCode RenderResult :=
  if options.keepRange.startSec < 0 ∨ options.videoDurationSec < options.keepRange.endSec then
    .error .INVALID_OVERRIDE_RANGE
  else if options.keepRange.endSec ≤ options.keepRange.startSec then
    .error .INVALID_OVERRIDE_RANGE
  else if strTruthy options.replacementAudioPath ∧ 1 / 1000 < options.keepRange.startSec then
    .error .NO_SYNC_SAFE_CUT
  else if run.exitCode ≠ 0 then
    .error .RENDER_FAILED
  else if !run.outputExists then
    .error .RENDER_FAILED
  else if 1 / 4 < |run.probedDurationSec - options.targetDurationSec| then
    .error .RENDER_FAILED
  else
    .ok { durationSec := run.probedDurationSec }

/-! ### Job creation (src/apps/api/src/job-service.ts, `JobService.createJob`) -/

/-- The duration probes of an upload: the video duration and, when a
replacement audio file was uploaded, its probed duration. -/
structure UploadProbe where
  videoDurationSec : ℚ
  replacementAudioDurationSec : Option ℚ
deriving DecidableEq, Repr

/-- The externally observable outcome of `createJob`: the final job status and
error code of the returned record, and how many analysis tasks were pushed
onto the queue. -/
structure CreateJobOutcome where
  status : JobStatus
  errorCode : Option ErrorCode
  analysisTasksEnqueued : ℕ
  targetDurationSec : ℚ
  deltaSec : ℚ
deriving DecidableEq, Repr

/-- `createJob` decision logic: target duration is the replacement-audio
duration when present, else the video duration; with replacement audio and
`deltaSec ≤ 0` the job is failed with `AUDIO_LONGER_THAN_VIDEO` and no task is
enqueued, otherwise it stays queued and one analysis task is enqueued.
File-system writes and event emission are not modelled. -/
def createJob (probe : UploadProbe) : CreateJobOutcome :=
  let targetDurationSec :=
    probe.replacementAudioDurationSec.getD probe.videoDurationSec
  let deltaSec := probe.videoDurationSec - targetDurationSec
  if probe.replacementAudioDurationSec.isSome ∧ deltaSec ≤ 0 then
    { status := .failed
      errorCode := some .AUDIO_LONGER_THAN_VIDEO
      analysisTasksEnqueued := 0
      targetDurationSec := targetDurationSec
      deltaSec := deltaSec }
  else
    { status := .queued
      errorCode := none
      analysisTasksEnqueued := 1
      targetDurationSec := targetDurationSec
      deltaSec := deltaSec }

/-! ### Event stream attach (src/apps/api/src/server.ts `GET /api/jobs/:id/events`,
src/apps/api/src/events.ts `JobEventBus.publish`, job-service.ts
`emitAndPersistEvent`)

Node.js executes each callback to completion on a single thread, so the SSE
attach handler (`eventBus.addClient` followed by the synchronous replay of
`listEvents`) and `emitAndPersistEvent` (`repo.insertEvent` followed by
`bus.publish`) are each atomic with respect to one another: the only
interleavings the runtime admits are the orders in which whole operations
run. One observer of one job's stream is modelled; `α` is the event payload. -/

/-- Durable event log, live-subscription flag of the observer, and the
sequence of events written to the observer's SSE stream. -/
structure SseState (α : Type) where
  history : List α
  attached : Bool
  received : List α
deriving DecidableEq, Repr

/-- One atomic operation touching a job's event stream: an event emission
(`emitAndPersistEvent`: persist, then publish to live subscribers), or the
observer's attach (`addClient`, then replay the stored history in order). -/
inductive SseOp (α : Type) where
  | emit (event : α)
  | attach
deriving DecidableEq, Repr

/-- Effect of one operation on the stream state. -/
def sseStep {α : Type} (s : SseState α) : SseOp α → SseState α
  | .emit event =>
    { history := s.history ++ [event]
      attached := s.attached
      received := s.received ++ if s.attached then [event] else [] }
  | .attach =>
    { history := s.history
      attached := true
      received := s.received ++ s.history }

/-- Run a schedule of operations from the initial state (empty durable log,
observer not attached). -/
def sseRun {α : Type} (ops : List (SseOp α)) : SseState α :=
  ops.foldl sseStep { history := [], attached := false, received := [] }

/-! ### Range algebra lemmas -/

/-- Sorted ascending by `startSec`. -/
def SortedByStart (l : List TimeRange) : Prop :=
  l.Pairwise startLE

/-- Pairwise non-overlapping list of ranges. -/
def NonOverlappingList (l : List TimeRange) : Prop :=
  l.Pairwise (fun a b => ¬ overlaps a b)

/-- `a` covers `b` as an interval. -/
def coversR (a b : TimeRange) : Prop :=
  a.startSec ≤ b.startSec ∧ b.endSec ≤ a.endSec

theorem normalizeRange_start_le_end (r : TimeRange) :
    (normalizeRange r).startSec ≤ (normalizeRange r).endSec := by
  unfold normalizeRange
  split
  · assumption
  · exact le_of_not_le (by assumption)

theorem normalizeRange_eq_self (r : TimeRange) (h : r.startSec ≤ r.endSec) :
    normalizeRange r = r := by
  unfold normalizeRange
  exact if_pos h

theorem mergeLoop_start_le (current : TimeRange) (l : List TimeRange)
    (h1 : ∀ x ∈ l, current.startSec ≤ x.startSec)
    (h2 : l.Pairwise startLE) :
    ∀ r ∈ mergeLoop current l, current.startSec ≤ r.startSec := by
  induction l generalizing current with
  | nil =>
    intro r hr
    simp only [mergeLoop, List.mem_singleton] at hr
    exact hr ▸ le_refl _
  | cons c rest ih =>
    intro r hr
    rw [mergeLoop] at hr
    rcases List.pairwise_cons.mp h2 with ⟨hcrest, hrest⟩
    by_cases hc : c.startSec ≤ current.endSec
    · rw [if_pos hc] at hr
      exact ih { startSec := current.startSec, endSec := max current.endSec c.endSec }
        (fun x hx => h1 x (List.mem_cons_of_mem _ hx)) hrest r hr
    · rw [if_neg hc] at hr
      rcases List.mem_cons.mp hr with h | h
      · exact h ▸ le_refl _
      · exact le_trans (h1 c (List.mem_cons_self _ _)) (ih c hcrest hrest r h)

theorem mergeLoop_pairwise_gap (current : TimeRange) (l : List TimeRange)
    (h2 : l.Pairwise startLE) :
    (mergeLoop current l).Pairwise (fun a b => a.endSec < b.startSec) := by
  induction l generalizing current with
  | nil => simp [mergeLoop]
  | cons c rest ih =>
    rw [mergeLoop]
    rcases List.pairwise_cons.mp h2 with ⟨hcrest, hrest⟩
    by_cases hc : c.startSec ≤ current.endSec
    · rw [if_pos hc]
      exact ih _ hrest
    · rw [if_neg hc]
      refine List.pairwise_cons.mpr ⟨?_, ih c hrest⟩
      intro r hr
      exact lt_of_lt_of_le (lt_of_not_le hc) (mergeLoop_start_le c rest hcrest hrest r hr)

theorem mergeLoop_nondegenerate (current : TimeRange) (l : List TimeRange)
    (hcur : current.startSec < current.endSec)
    (h3 : ∀ x ∈ l, x.startSec < x.endSec) :
    ∀ r ∈ mergeLoop current l, r.startSec < r.endSec := by
  induction l generalizing current with
  | nil =>
    intro r hr
    simp only [mergeLoop, List.mem_singleton] at hr
    exact hr ▸ hcur
  | cons c rest ih =>
    intro r hr
    rw [mergeLoop] at hr
    by_cases hc : c.startSec ≤ current.endSec
    · rw [if_pos hc] at hr
      exact ih { startSec := current.startSec, endSec := max current.endSec c.endSec }
        (lt_of_lt_of_le hcur (le_max_left _ _))
        (fun x hx => h3 x (List.mem_cons_of_mem _ hx)) r hr
    · rw [if_neg hc] at hr
      rcases List.mem_cons.mp hr with h | h
      · exact h ▸ hcur
      · exact ih c (h3 c (List.mem_cons_self _ _))
          (fun x hx => h3 x (List.mem_cons_of_mem _ hx)) r h

theorem mergeLoop_sum_le (current : TimeRange) (l : List TimeRange)
    (h3 : ∀ x ∈ l, x.startSec ≤ x.endSec) :
    ((mergeLoop current l).map (fun r => r.endSec - r.startSec)).sum ≤
      (current.endSec - current.startSec) +
        ((l.map (fun r => r.endSec - r.startSec)).sum) := by
  induction l generalizing current with
  | nil => simp [mergeLoop]
  | cons c rest ih =>
    rw [mergeLoop]
    by_cases hc : c.startSec ≤ current.endSec
    · rw [if_pos hc]
      have hce : c.startSec ≤ c.endSec := h3 c (List.mem_cons_self _ _)
      have hbound :
          max current.endSec c.endSec - current.startSec ≤
            (current.endSec - current.startSec) + (c.endSec - c.startSec) := by
        rcases max_cases current.endSec c.endSec with ⟨hm, _⟩ | ⟨hm, _⟩ <;>
          rw [hm] <;> linarith
      have := ih { startSec := current.startSec
                   endSec := max current.endSec c.endSec }
        (fun x hx => h3 x (List.mem_cons_of_mem _ hx))
      simp only [List.map_cons, List.sum_cons] at this ⊢
      linarith
    · rw [if_neg hc]
      have := ih c (fun x hx => h3 x (List.mem_cons_of_mem _ hx))
      simp only [List.map_cons, List.sum_cons] at this ⊢
      linarith

theorem mergeLoop_covers (current : TimeRange) (l : List TimeRange)
    (h1 : ∀ x ∈ l, current.startSec ≤ x.startSec)
    (h2 : l.Pairwise startLE) (x : TimeRange)
    (hx : x ∈ l ∨ coversR current x) :
    ∃ o ∈ mergeLoop current l, coversR o x := by
  induction l generalizing current with
  | nil =>
    rcases hx with h | h
    · exact absurd h (List.not_mem_nil x)
    · exact ⟨current, by simp [mergeLoop], h⟩
  | cons c rest ih =>
    rw [mergeLoop]
    rcases List.pairwise_cons.mp h2 with ⟨hcrest, hrest⟩
    by_cases hc : c.startSec ≤ current.endSec
    · rw [if_pos hc]
      refine ih { startSec := current.startSec
                  endSec := max current.endSec c.endSec }
        (fun y hy => h1 y (List.mem_cons_of_mem _ hy)) hrest ?_
      rcases hx with h | h
      · rcases List.mem_cons.mp h with h | h
        · refine Or.inr ?_
          rw [h]
          exact ⟨h1 c (List.mem_cons_self _ _), le_max_right _ _⟩
        · exact Or.inl h
      · exact Or.inr ⟨h.1, le_trans h.2 (le_max_left _ _)⟩
    · rw [if_neg hc]
      rcases hx with h | h
      · have hsub : x ∈ rest ∨ coversR c x := by
          rcases List.mem_cons.mp h with h | h
          · refine Or.inr ?_
            rw [h]
            exact ⟨le_refl _, le_refl _⟩
          · exact Or.inl h
        rcases ih c hcrest hrest hsub with ⟨o, ho, hcov⟩
        exact ⟨o, List.mem_cons_of_mem _ ho, hcov⟩
      · exact ⟨current, List.mem_cons_self _ _, h⟩

theorem mergeLoop_of_gap (current : TimeRange) (l : List TimeRange)
    (h : (current :: l).Pairwise (fun a b => a.endSec < b.startSec)) :
    mergeLoop current l = current :: l := by
  induction l generalizing current with
  | nil => rfl
  | cons c rest ih =>
    rcases List.pairwise_cons.mp h with ⟨hhead, htail⟩
    rw [mergeLoop, if_neg (not_le.mpr (hhead c (List.mem_cons_self _ _)))]
    rw [ih c htail]

theorem sortedRanges_sorted (ranges : List TimeRange) :
    (sortedRanges ranges).Pairwise startLE :=
  (List.sorted_insertionSort startLE (ranges.map normalizeRange)).filter _

theorem sortedRanges_nondeg (ranges : List TimeRange) :
    ∀ r ∈ sortedRanges ranges, r.startSec < r.endSec := by
  intro r hr
  unfold sortedRanges at hr
  exact of_decide_eq_true (List.mem_filter.mp hr).2

theorem mem_sortedRanges_of (ranges : List TimeRange) (x : TimeRange)
    (hx : x ∈ ranges.map normalizeRange) (hnd : x.startSec < x.endSec) :
    x ∈ sortedRanges ranges := by
  refine List.mem_filter.mpr ⟨?_, by simpa using hnd⟩
  exact (List.mem_insertionSort startLE).mpr hx

theorem sum_filter_lengths (l : List TimeRange) (h : ∀ x ∈ l, x.startSec ≤ x.endSec) :
    ((l.filter (fun range => decide (range.startSec < range.endSec))).map
      (fun r => r.endSec - r.startSec)).sum = (l.map rangeLength).sum := by
  induction l with
  | nil => simp
  | cons a l ih =>
    have ha := h a (List.mem_cons_self _ _)
    have ih' := ih (fun x hx => h x (List.mem_cons_of_mem _ hx))
    rw [List.filter_cons]
    by_cases hp : a.startSec < a.endSec
    · rw [if_pos (by simpa using hp)]
      simp only [List.map_cons, List.sum_cons]
      rw [ih']
      have : rangeLength a = a.endSec - a.startSec := by
        unfold rangeLength
        exact max_eq_right (by linarith)
      rw [this]
    · rw [if_neg (by simpa using hp)]
      simp only [List.map_cons, List.sum_cons]
      rw [ih']
      have : rangeLength a = 0 := by
        unfold rangeLength
        exact max_eq_left (by linarith)
      rw [this, zero_add]

theorem sum_sortedRanges (ranges : List TimeRange) :
    ((sortedRanges ranges).map (fun r => r.endSec - r.startSec)).sum =
      (ranges.map (fun r => rangeLength (normalizeRange r))).sum := by
  have hall : ∀ x ∈ (ranges.map normalizeRange).insertionSort startLE,
      x.startSec ≤ x.endSec := by
    intro x hx
    rcases List.mem_map.mp ((List.mem_insertionSort startLE).mp hx) with ⟨y, _, hy⟩
    exact hy ▸ normalizeRange_start_le_end y
  have hperm : List.Perm
      (((ranges.map normalizeRange).insertionSort startLE).map rangeLength)
      ((ranges.map normalizeRange).map rangeLength) :=
    (List.perm_insertionSort startLE (ranges.map normalizeRange)).map rangeLength
  unfold sortedRanges
  rw [sum_filter_lengths _ hall, hperm.sum_eq, List.map_map]
  rfl

theorem mergeRanges_nil_of (ranges : List TimeRange) (h : sortedRanges ranges = []) :
    mergeRanges ranges = [] := by
  unfold mergeRanges
  rw [h]

theorem mergeRanges_cons_of (ranges : List TimeRange) (f : TimeRange)
    (rest : List TimeRange) (h : sortedRanges ranges = f :: rest) :
    mergeRanges ranges = mergeLoop f rest := by
  unfold mergeRanges
  rw [h]

theorem mergeRanges_pairwise_gap (ranges : List TimeRange) :
    (mergeRanges ranges).Pairwise (fun a b => a.endSec < b.startSec) := by
  cases hsr : sortedRanges ranges with
  | nil => rw [mergeRanges_nil_of ranges hsr]; exact List.Pairwise.nil
  | cons f rest =>
    rw [mergeRanges_cons_of ranges f rest hsr]
    have hs := sortedRanges_sorted ranges
    rw [hsr] at hs
    exact mergeLoop_pairwise_gap f rest (List.pairwise_cons.mp hs).2

theorem mergeRanges_nondeg (ranges : List TimeRange) :
    ∀ r ∈ mergeRanges ranges, r.startSec < r.endSec := by
  cases hsr : sortedRanges ranges with
  | nil => rw [mergeRanges_nil_of ranges hsr]; intro r hr; exact absurd hr (List.not_mem_nil r)
  | cons f rest =>
    rw [mergeRanges_cons_of ranges f rest hsr]
    have hnd := sortedRanges_nondeg ranges
    rw [hsr] at hnd
    exact mergeLoop_nondegenerate f rest (hnd f (List.mem_cons_self _ _))
      (fun x hx => hnd x (List.mem_cons_of_mem _ hx))

theorem mergeRanges_sortedByStart (ranges : List TimeRange) :
    SortedByStart (mergeRanges ranges) := by
  refine List.Pairwise.imp_of_mem ?_ (mergeRanges_pairwise_gap ranges)
  intro a b ha _ hab
  exact le_of_lt (lt_trans (mergeRanges_nondeg ranges a ha) hab)

theorem mergeRanges_nonOverlapping (ranges : List TimeRange) :
    NonOverlappingList (mergeRanges ranges) := by
  refine List.Pairwise.imp ?_ (mergeRanges_pairwise_gap ranges)
  intro a b hab hover
  exact absurd hover.2 (not_lt.mpr (le_of_lt hab))

theorem mergeRanges_total_length (ranges : List TimeRange) :
    ((mergeRanges ranges).map rangeLength).sum ≤
      (ranges.map (fun r => rangeLength (normalizeRange r))).sum := by
  cases hsr : sortedRanges ranges with
  | nil =>
    rw [mergeRanges_nil_of ranges hsr]
    refine List.sum_nonneg ?_
    intro q hq
    rcases List.mem_map.mp hq with ⟨y, _, hy⟩
    exact hy ▸ le_max_left 0 _
  | cons f rest =>
    rw [mergeRanges_cons_of ranges f rest hsr]
    have hnd := sortedRanges_nondeg ranges
    rw [hsr] at hnd
    have heq : (mergeLoop f rest).map rangeLength =
        (mergeLoop f rest).map (fun r => r.endSec - r.startSec) := by
      refine List.map_congr_left ?_
      intro r hr
      have := mergeLoop_nondegenerate f rest (hnd f (List.mem_cons_self _ _))
        (fun x hx => hnd x (List.mem_cons_of_mem _ hx)) r hr
      unfold rangeLength
      exact max_eq_right (by linarith)
    rw [heq]
    have hsum := mergeLoop_sum_le f rest
      (fun x hx => le_of_lt (hnd x (List.mem_cons_of_mem _ hx)))
    have hall : ((f :: rest).map (fun r => r.endSec - r.startSec)).sum =
        (ranges.map (fun r => rangeLength (normalizeRange r))).sum := by
      rw [← hsr]
      exact sum_sortedRanges ranges
    simp only [List.map_cons, List.sum_cons] at hall
    linarith

theorem mergeRanges_covers (ranges : List TimeRange) (x : TimeRange)
    (hx : x ∈ ranges.map normalizeRange) (hnd : x.startSec < x.endSec) :
    ∃ o ∈ mergeRanges ranges, coversR o x := by
  have hmem := mem_sortedRanges_of ranges x hx hnd
  cases hsr : sortedRanges ranges with
  | nil => rw [hsr] at hmem; exact absurd hmem (List.not_mem_nil x)
  | cons f rest =>
    rw [mergeRanges_cons_of ranges f rest hsr]
    have hs := sortedRanges_sorted ranges
    rw [hsr] at hs
    rcases List.pairwise_cons.mp hs with ⟨hhead, htail⟩
    rw [hsr] at hmem
    rcases List.mem_cons.mp hmem with h | h
    · exact mergeLoop_covers f rest hhead htail x (Or.inr (by rw [h]; exact ⟨le_refl _, le_refl _⟩))
    · exact mergeLoop_covers f rest hhead htail x (Or.inl h)

theorem mergeRanges_idem (ranges : List TimeRange) :
    mergeRanges (mergeRanges ranges) = mergeRanges ranges := by
  have hnd := mergeRanges_nondeg ranges
  have hgap := mergeRanges_pairwise_gap ranges
  have hsorted := mergeRanges_sortedByStart ranges
  have hmap : (mergeRanges ranges).map normalizeRange = mergeRanges ranges := by
    rw [List.map_congr_left (fun r hr => normalizeRange_eq_self r (le_of_lt (hnd r hr)))]
    exact List.map_id _
  have hsortEq : ((mergeRanges ranges).map normalizeRange).insertionSort startLE =
      mergeRanges ranges := by
    rw [hmap]
    exact List.Sorted.insertionSort_eq hsorted
  have hfilter : sortedRanges (mergeRanges ranges) = mergeRanges ranges := by
    unfold sortedRanges
    rw [hsortEq]
    refine List.filter_eq_self.mpr ?_
    intro a ha
    simpa using hnd a ha
  cases hout : mergeRanges ranges with
  | nil =>
    rw [hout] at hfilter
    exact mergeRanges_nil_of [] hfilter
  | cons f rest =>
    rw [hout] at hfilter hgap
    rw [mergeRanges_cons_of (f :: rest) f rest hfilter]
    exact mergeLoop_of_gap f rest hgap

/-! ### Decision engine lemmas -/

/-- The decision record produced when the candidate loop accepts `c`. -/
def acceptedDecision (input : DecisionInput) (trimNeededSec : ℚ)
    (protectedRanges : List TimeRange) (c : Candidate) : TrimDecision :=
  let speechOverlap := overlapWithRanges c.trimRanges protectedRanges
  let candidateTrimLength := (c.trimRanges.map rangeLength).sum
  let silenceScore := silenceCoverage c.trimRanges input.analysis.silenceRegions
  let overlapShare := if 0 < candidateTrimLength then speechOverlap / candidateTrimLength else 0
  { keepRange := c.keepRange
    trimNeededSec := max 0 trimNeededSec
    strategy := c.strategy
    confidence :=
      max 0 (min 1
        (strategyBaseConfidence c.strategy + silenceScore * (10 / 100)
          - overlapShare * (50 / 100)))
    reasoning :=
      c.reasoning ++
        ["Speech overlap across trim regions is " ++ toFixedQ 2 speechOverlap ++ "s.",
         "Silence coverage of trim regions is " ++ toFixedQ 1 (silenceScore * 100) ++ "%."]
    protectedRanges := protectedRanges }

theorem acceptCandidate_cons_overlap (input : DecisionInput) (trimNeededSec : ℚ)
    (P : List TimeRange) (c : Candidate) (rest : List Candidate)
    (h : OVERLAP_TOLERANCE_SEC < overlapWithRanges c.trimRanges P) :
    acceptCandidate input trimNeededSec P (c :: rest) =
      acceptCandidate input trimNeededSec P rest := by
  rw [acceptCandidate]
  simp only [if_pos h]

theorem acceptCandidate_cons_outside (input : DecisionInput) (trimNeededSec : ℚ)
    (P : List TimeRange) (c : Candidate) (rest : List Candidate)
    (h : ¬ OVERLAP_TOLERANCE_SEC < overlapWithRanges c.trimRanges P)
    (hw : ¬ withinDuration c.keepRange input.videoDurationSec) :
    acceptCandidate input trimNeededSec P (c :: rest) =
      acceptCandidate input trimNeededSec P rest := by
  rw [acceptCandidate]
  simp only [if_neg h, if_pos hw]

theorem acceptCandidate_cons_accept (input : DecisionInput) (trimNeededSec : ℚ)
    (P : List TimeRange) (c : Candidate) (rest : List Candidate)
    (h : ¬ OVERLAP_TOLERANCE_SEC < overlapWithRanges c.trimRanges P)
    (hw : withinDuration c.keepRange input.videoDurationSec) :
    acceptCandidate input trimNeededSec P (c :: rest) =
      some (acceptedDecision input trimNeededSec P c) := by
  rw [acceptCandidate]
  simp only [if_neg h, if_neg (not_not_intro hw)]
  rfl

theorem acceptCandidate_protectedRanges (input : DecisionInput) (trimNeededSec : ℚ)
    (P : List TimeRange) :
    ∀ (cs : List Candidate) (d : TrimDecision),
      acceptCandidate input trimNeededSec P cs = some d → d.protectedRanges = P := by
  intro cs
  induction cs with
  | nil =>
    intro d h
    simp [acceptCandidate] at h
  | cons c rest ih =>
    intro d h
    by_cases h1 : OVERLAP_TOLERANCE_SEC < overlapWithRanges c.trimRanges P
    · rw [acceptCandidate_cons_overlap input trimNeededSec P c rest h1] at h
      exact ih d h
    · by_cases h2 : withinDuration c.keepRange input.videoDurationSec
      · rw [acceptCandidate_cons_accept input trimNeededSec P c rest h1 h2] at h
        injection h with h'
        rw [← h']
        rfl
      · rw [acceptCandidate_cons_outside input trimNeededSec P c rest h1 h2] at h
        exact ih d h

theorem computeTrimDecision_protectedRanges (input : DecisionInput) (d : TrimDecision)
    (h : computeTrimDecision input = .ok d) :
    d.protectedRanges = protectedRangesOf input := by
  simp only [computeTrimDecision] at h
  split at h
  · cases h
  · split at h
    · rename_i dec hacc
      cases h
      exact acceptCandidate_protectedRanges input _ _ _ d hacc
    · split at h
      · cases h
      · injection h with h'
        rw [← h']

theorem buildCandidates_noTrim (v t : ℚ) (repl : Bool) (h : v ≤ t) :
    buildCandidates v t repl =
      [{ strategy := .outro, keepRange := ⟨0, v⟩, trimRanges := [],
         reasoning := ["No trimming required because video already matches target duration."] }] := by
  unfold buildCandidates
  rw [if_pos (max_le (le_refl 0) (by linarith))]

theorem buildCandidates_replacement (v t : ℚ) (h : max 0 t < v) :
    buildCandidates v t true =
      [{ strategy := .outro, keepRange := ⟨0, t⟩, trimRanges := [⟨max 0 t, v⟩],
         reasoning := ["Preferred outro trim candidate selected first."] }] := by
  have ht : t < v := lt_of_le_of_lt (le_max_right 0 t) h
  have htrim : 0 < v - t := by linarith
  unfold buildCandidates
  rw [if_neg (by rw [max_eq_right (le_of_lt htrim)]; exact not_le.mpr htrim)]
  simp [hasInvalidRange, List.filter, not_le.mpr h]

theorem buildCandidates_full (v t : ℚ) (ht : 0 < t) (hvt : t < v) :
    buildCandidates v t false =
      [{ strategy := .outro, keepRange := ⟨0, t⟩, trimRanges := [⟨t, v⟩],
         reasoning := ["Preferred outro trim candidate selected first."] },
       { strategy := .intro, keepRange := ⟨v - t, v⟩, trimRanges := [⟨0, v - t⟩],
         reasoning := ["No safe outro candidate found; evaluating intro trim."] },
       { strategy := .intro_outro,
         keepRange := ⟨(v - t) / 2, v - (v - t) / 2⟩,
         trimRanges := [⟨0, (v - t) / 2⟩, ⟨v - (v - t) / 2, v⟩],
         reasoning := ["Balancing trim between intro and outro as secondary fallback."] }] := by
  have htrim : 0 < v - t := by linarith
  have hmax : max 0 (v - t) = v - t := max_eq_right (le_of_lt htrim)
  have hmaxt : max 0 t = t := max_eq_right (le_of_lt ht)
  have hhalf : 0 < (v - t) / 2 := by linarith
  have hsplit : v - t - (v - t) / 2 = (v - t) / 2 := by ring
  unfold buildCandidates
  rw [if_neg (by rw [hmax]; exact not_le.mpr htrim)]
  simp only [hmax, hmaxt, hsplit, Bool.false_eq_true, if_false]
  have h1 : hasInvalidRange [⟨t, v⟩] = false := by
    simp [hasInvalidRange]
    linarith
  have h2 : hasInvalidRange [⟨0, v - t⟩] = false := by
    simp [hasInvalidRange]
    linarith
  have h3 : hasInvalidRange [⟨(0 : ℚ), (v - t) / 2⟩, ⟨v - (v - t) / 2, v⟩] = false := by
    simp [hasInvalidRange]
    linarith
  simp [List.filter, h1, h2, h3]

theorem intersectionLength_le_rangeLength (a b : TimeRange) :
    intersectionLength a b ≤ rangeLength a := by
  unfold intersectionLength rangeLength
  split
  · rename_i h
    have h1 := min_le_left a.endSec b.endSec
    have h2 := le_max_left a.startSec b.startSec
    exact le_trans (by linarith) (le_max_right _ _)
  · exact le_max_left _ _

theorem totalOverlapLength_nonpos (r : TimeRange) (P : List TimeRange)
    (h : r.endSec ≤ r.startSec) : totalOverlapLength r P ≤ 0 := by
  have hlen : rangeLength r = 0 := by
    unfold rangeLength
    exact max_eq_left (by linarith)
  unfold totalOverlapLength
  induction P with
  | nil => simp
  | cons p rest ih =>
    simp only [List.map_cons, List.sum_cons]
    have := intersectionLength_le_rangeLength r p
    rw [hlen] at this
    linarith

theorem overlapWithRanges_singleton (r : TimeRange) (P : List TimeRange) :
    overlapWithRanges [r] P = totalOverlapLength r P := by
  simp [overlapWithRanges]

/-- The decision record produced by the fallback path of `computeTrimDecision`
(reached only without replacement audio). -/
def fallbackDecision (v t : ℚ) (analysis : AnalysisResult) : TrimDecision :=
  let trimNeededSec := v - t
  let protectedRanges := protectedRangesOf ⟨v, t, analysis, false⟩
  let fallback := fallbackCandidate v t analysis
  let speechOverlap := overlapWithRanges fallback.trimRanges protectedRanges
  let fallbackConfidence := max (40 / 100) (62 / 100 - speechOverlap / max 1 trimNeededSec)
  { keepRange := fallback.keepRange
    trimNeededSec := max 0 trimNeededSec
    strategy := fallback.strategy
    confidence := min 1 fallbackConfidence
    reasoning :=
      fallback.reasoning ++
        ["Fallback overlap with protected speech is " ++ toFixedQ 2 speechOverlap ++ "s."]
    protectedRanges := protectedRanges }

theorem computeTrimDecision_of_accept (v t : ℚ) (analysis : AnalysisResult) (repl : Bool)
    (h0 : ¬ v - t < -(1 / 100)) (d : TrimDecision)
    (hacc : acceptCandidate ⟨v, t, analysis, repl⟩ (v - t)
      (protectedRangesOf ⟨v, t, analysis, repl⟩) (buildCandidates v t repl) = some d) :
    computeTrimDecision ⟨v, t, analysis, repl⟩ = .ok d := by
  simp only [computeTrimDecision]
  rw [if_neg h0, hacc]

theorem computeTrimDecision_of_none_repl (v t : ℚ) (analysis : AnalysisResult)
    (h0 : ¬ v - t < -(1 / 100))
    (hacc : acceptCandidate ⟨v, t, analysis, true⟩ (v - t)
      (protectedRangesOf ⟨v, t, analysis, true⟩) (buildCandidates v t true) = none) :
    computeTrimDecision ⟨v, t, analysis, true⟩ = .error .NO_SYNC_SAFE_CUT := by
  simp only [computeTrimDecision]
  rw [if_neg h0, hacc]
  rfl

theorem computeTrimDecision_of_none_noRepl (v t : ℚ) (analysis : AnalysisResult)
    (h0 : ¬ v - t < -(1 / 100))
    (hacc : acceptCandidate ⟨v, t, analysis, false⟩ (v - t)
      (protectedRangesOf ⟨v, t, analysis, false⟩) (buildCandidates v t false) = none) :
    computeTrimDecision ⟨v, t, analysis, false⟩ = .ok (fallbackDecision v t analysis) := by
  simp only [computeTrimDecision]
  rw [if_neg h0, hacc]
  rfl

/-- The aggregate low-information contact of a trim range, as the spec words
it: the sum over low-info regions of `intersectionLength(trim, region) ×
region.score`. -/
def lowInfoContact (lowInfoRegions : List LowInfoRegion) (range : TimeRange) : ℚ :=
  (lowInfoRegions.map (fun lowInfo =>
    intersectionLength range lowInfo.toTimeRange * lowInfo.score)).sum

theorem scoreFor_eq_neg_contact (L : List LowInfoRegion) (r : TimeRange) :
    scoreFor L r = -(lowInfoContact L r) := by
  unfold scoreFor lowInfoContact
  congr 1
  congr 1
  refine List.map_congr_left ?_
  intro lowInfo _
  by_cases h : overlaps r lowInfo.toTimeRange
  · rw [if_pos h]
  · rw [if_neg h]
    unfold intersectionLength
    rw [if_neg h, zero_mul]

theorem fallbackCandidate_eq (v t : ℚ) (analysis : AnalysisResult) (hvt : t < v) :
    fallbackCandidate v t analysis =
      { strategy := .fallback_low_density
        keepRange :=
          if lowInfoContact analysis.lowInfoRegions ⟨0, v - t⟩ ≤
              lowInfoContact analysis.lowInfoRegions ⟨t, v⟩
          then ⟨0, t⟩ else ⟨v - t, v⟩
        trimRanges :=
          [if lowInfoContact analysis.lowInfoRegions ⟨0, v - t⟩ ≤
              lowInfoContact analysis.lowInfoRegions ⟨t, v⟩
           then ⟨t, v⟩ else ⟨0, v - t⟩]
        reasoning :=
          ["Fallback selected by lowest semantic-density edge region when rule-based candidates were blocked."] } := by
  have hmax : max 0 (v - t) = v - t := max_eq_right (by linarith)
  simp only [fallbackCandidate, hmax, scoreFor_eq_neg_contact, neg_le_neg_iff]

/-! ### Theorems for the frozen claims -/

/-- C1 counterexample: 10s video, 8s target, a speech region `[0, 10)`
blocking every ordered candidate, and one low-info region `[8, 10)` with
score 1. The intro edge trim `[0, 2)` has contact 0 and the outro edge trim
`[8, 10)` has contact 2, so the claim ("trimmed edge with the LOWER contact")
demands the intro edge, keeping `[2, 10)`; the code keeps `[0, 8)` - it trims
the outro, the edge with the HIGHER contact. -/
theorem C1_counterexample :
    (computeTrimDecision ⟨10, 8, ⟨[⟨0, 10⟩], [], [], [⟨⟨8, 10⟩, 1⟩], []⟩, false⟩).map
        (fun d => (d.strategy, d.keepRange)) = .ok (.fallback_low_density, ⟨0, 8⟩) ∧
    lowInfoContact [⟨⟨8, 10⟩, 1⟩] ⟨0, 2⟩ = 0 ∧
    lowInfoContact [⟨⟨8, 10⟩, 1⟩] ⟨8, 10⟩ = 2 ∧
    (⟨0, 8⟩ : TimeRange) ≠ ⟨2, 10⟩ := by
  refine ⟨?_, ?_, ?_, ?_⟩
  · norm_num [computeTrimDecision, protectedRangesOf, mergeRanges, sortedRanges,
      buildCandidates, acceptCandidate, overlapWithRanges, totalOverlapLength,
      withinDuration, silenceCoverage, hasInvalidRange, rangeLength, Except.map,
      OVERLAP_TOLERANCE_SEC, SPEECH_PADDING_SEC, List.insertionSort, List.orderedInsert,
      normalizeRange, expandRange, intersectionLength, overlaps, fallbackCandidate,
      scoreFor, mergeLoop]
  · norm_num [lowInfoContact, intersectionLength, overlaps]
  · norm_num [lowInfoContact, intersectionLength, overlaps]
  · intro h
    have := congrArg TimeRange.startSec h
    norm_num at this

/-- C1 (amended): when no ordered candidate is accepted and there is no
replacement audio, the decision is `fallback_low_density` and the trimmed edge
is the one with the HIGHER aggregate low-information contact - the outro trim
is kept exactly when the intro edge's contact is at most the outro edge's
contact (so the outro is chosen on ties). -/
theorem C1_fallback_picks_higher_contact_edge (v t : ℚ) (analysis : AnalysisResult)
    (ht : 0 < t) (hvt : t < v)
    (hnone : ∀ c ∈ buildCandidates v t false,
      OVERLAP_TOLERANCE_SEC <
        overlapWithRanges c.trimRanges (protectedRangesOf ⟨v, t, analysis, false⟩)) :
    (computeTrimDecision ⟨v, t, analysis, false⟩).map (fun d => (d.strategy, d.keepRange)) =
      .ok (.fallback_low_density,
        if lowInfoContact analysis.lowInfoRegions ⟨0, v - t⟩ ≤
            lowInfoContact analysis.lowInfoRegions ⟨t, v⟩
        then ⟨0, t⟩ else ⟨v - t, v⟩) := by
  have h0 : ¬ v - t < -(1 / 100) := by linarith
  have hacc : acceptCandidate ⟨v, t, analysis, false⟩ (v - t)
      (protectedRangesOf ⟨v, t, analysis, false⟩) (buildCandidates v t false) = none := by
    rw [buildCandidates_full v t ht hvt] at hnone ⊢
    rw [acceptCandidate_cons_overlap _ _ _ _ _ (hnone _ (List.mem_cons_self _ _))]
    rw [acceptCandidate_cons_overlap _ _ _ _ _
      (hnone _ (List.mem_cons_of_mem _ (List.mem_cons_self _ _)))]
    rw [acceptCandidate_cons_overlap _ _ _ _ _
      (hnone _ (List.mem_cons_of_mem _ (List.mem_cons_of_mem _ (List.mem_cons_self _ _))))]
    rfl
  rw [computeTrimDecision_of_none_noRepl v t analysis h0 hacc]
  simp only [Except.map, fallbackDecision, fallbackCandidate_eq v t analysis hvt]

/-- Witness for C1: at the counterexample input, the intro contact 0 is at
most the outro contact 2, so the amended rule keeps `[0, 8)`. -/
theorem C1_witness :
    (computeTrimDecision ⟨10, 8, ⟨[⟨0, 10⟩], [], [], [⟨⟨6, 10⟩, 9 / 10⟩], []⟩, false⟩).map
        (fun d => (d.strategy, d.keepRange)) = .ok (.fallback_low_density, ⟨0, 8⟩) := by
  have h := C1_fallback_picks_higher_contact_edge 10 8
    ⟨[⟨0, 10⟩], [], [], [⟨⟨6, 10⟩, 9 / 10⟩], []⟩ (by norm_num) (by norm_num) ?hnone
  case hnone =>
    intro c hc
    rw [buildCandidates_full 10 8 (by norm_num) (by norm_num)] at hc
    rcases List.mem_cons.mp hc with h1 | hc
    · subst h1
      norm_num [overlapWithRanges, totalOverlapLength, protectedRangesOf, mergeRanges,
        sortedRanges, List.insertionSort, normalizeRange, expandRange, SPEECH_PADDING_SEC,
        OVERLAP_TOLERANCE_SEC, intersectionLength, overlaps, mergeLoop]
    rcases List.mem_cons.mp hc with h1 | hc
    · subst h1
      norm_num [overlapWithRanges, totalOverlapLength, protectedRangesOf, mergeRanges,
        sortedRanges, List.insertionSort, normalizeRange, expandRange, SPEECH_PADDING_SEC,
        OVERLAP_TOLERANCE_SEC, intersectionLength, overlaps, mergeLoop]
    rcases List.mem_cons.mp hc with h1 | hc
    · subst h1
      norm_num [overlapWithRanges, totalOverlapLength, protectedRangesOf, mergeRanges,
        sortedRanges, List.insertionSort, normalizeRange, expandRange, SPEECH_PADDING_SEC,
        OVERLAP_TOLERANCE_SEC, intersectionLength, overlaps, mergeLoop]
    · exact absurd hc (List.not_mem_nil c)
  rw [h, if_pos]
  norm_num [lowInfoContact, intersectionLength, overlaps]

/-- C9: `mergeRanges` returns a list sorted by start and pairwise
non-overlapping, its total length is at most the sum of the input lengths
(the length of an input range is the length of the interval it denotes,
i.e. `rangeLength` of its normalization), and `mergeRanges` is idempotent. -/
theorem C9_mergeRanges_properties (ranges : List TimeRange) :
    SortedByStart (mergeRanges ranges) ∧
    NonOverlappingList (mergeRanges ranges) ∧
    ((mergeRanges ranges).map rangeLength).sum ≤
      (ranges.map (fun r => rangeLength (normalizeRange r))).sum ∧
    mergeRanges (mergeRanges ranges) = mergeRanges ranges :=
  ⟨mergeRanges_sortedByStart ranges, mergeRanges_nonOverlapping ranges,
    mergeRanges_total_length ranges, mergeRanges_idem ranges⟩

/-- C8: every decision returned by `computeTrimDecision` carries as
`protectedRanges` exactly the merge of the speech regions expanded by the
0.35s padding and clamped to `[0, videoDurationSec]`; that range set is
sorted by start and pairwise non-overlapping, and every non-degenerate
expanded speech region is contained in one of its ranges. -/
theorem C8_protectedRanges_spec (input : DecisionInput) :
    ((computeTrimDecision input).map TrimDecision.protectedRanges =
      (computeTrimDecision input).map (fun _ => protectedRangesOf input)) ∧
    protectedRangesOf input =
      mergeRanges (input.analysis.speechRegions.map (fun region =>
        expandRange region SPEECH_PADDING_SEC input.videoDurationSec)) ∧
    SortedByStart (protectedRangesOf input) ∧
    NonOverlappingList (protectedRangesOf input) ∧
    (∀ region ∈ input.analysis.speechRegions,
      (expandRange region SPEECH_PADDING_SEC input.videoDurationSec).startSec <
          (expandRange region SPEECH_PADDING_SEC input.videoDurationSec).endSec →
        ∃ o ∈ protectedRangesOf input,
          o.startSec ≤ (expandRange region SPEECH_PADDING_SEC input.videoDurationSec).startSec ∧
          (expandRange region SPEECH_PADDING_SEC input.videoDurationSec).endSec ≤ o.endSec) := by
  refine ⟨?_, rfl, mergeRanges_sortedByStart _, mergeRanges_nonOverlapping _, ?_⟩
  · cases hc : computeTrimDecision input with
    | error e => rfl
    | ok d =>
      simp only [Except.map]
      rw [computeTrimDecision_protectedRanges input d hc]
  · intro region hmem hnd
    have hx : expandRange region SPEECH_PADDING_SEC input.videoDurationSec ∈
        (input.analysis.speechRegions.map (fun region =>
          expandRange region SPEECH_PADDING_SEC input.videoDurationSec)).map
          normalizeRange := by
      refine List.mem_map.mpr ⟨expandRange region SPEECH_PADDING_SEC input.videoDurationSec,
        List.mem_map.mpr ⟨region, hmem, rfl⟩, ?_⟩
      exact normalizeRange_eq_self _ (le_of_lt hnd)
    exact mergeRanges_covers _ _ hx hnd

/-- C2 counterexample: with a 7.995s video and an 8s target (so
`trimNeededSec = 0` and the engine tolerates the -0.005s delta), the accepted
outro candidate keeps `[0, videoDurationSec) = [0, 7.995)`, not
`[0, targetDurationSec) = [0, 8)` as the claim asserts for every case with
`trimNeededSec == 0`. -/
theorem C2_counterexample :
    (computeTrimDecision ⟨7995 / 1000, 8, ⟨[], [], [], [], []⟩, false⟩).map
        (fun d => (d.strategy, d.keepRange, d.trimNeededSec)) =
      .ok (.outro, ⟨0, 7995 / 1000⟩, 0) ∧
    (⟨0, 7995 / 1000⟩ : TimeRange) ≠ ⟨0, 8⟩ := by
  constructor
  · norm_num [computeTrimDecision, protectedRangesOf, mergeRanges, sortedRanges,
      buildCandidates, acceptCandidate, overlapWithRanges, totalOverlapLength,
      withinDuration, silenceCoverage, hasInvalidRange, rangeLength, Except.map,
      OVERLAP_TOLERANCE_SEC, SPEECH_PADDING_SEC]
  · intro h
    have := congrArg TimeRange.endSec h
    norm_num at this

/-- C2 (amended): candidates are generated and evaluated in the fixed order
outro, intro, intro_outro (the latter two only without replacement audio), and
the first candidate whose trim ranges overlap the merged protected speech
ranges by at most 0.02s and whose keep range lies within the video is
returned. The outro keep range is `[0, targetDurationSec)` whenever
`videoDurationSec > targetDurationSec`; when `videoDurationSec ≤
targetDurationSec` (`trimNeededSec = 0`) the sole outro candidate keeps
`[0, videoDurationSec)` instead, which agrees with `[0, targetDurationSec)`
only when the two durations are equal. -/
theorem C2_first_accepted_candidate (v t : ℚ) (analysis : AnalysisResult)
    (repl : Bool) (hv : 0 < v) (ht : 0 < t) :
    ((buildCandidates v t repl).map Candidate.strategy =
        if v ≤ t then [.outro]
        else if repl then [.outro] else [.outro, .intro, .intro_outro]) ∧
    (v ≤ t → -(1 / 100) ≤ v - t →
      (computeTrimDecision ⟨v, t, analysis, repl⟩).map (fun d => (d.strategy, d.keepRange)) =
        .ok (.outro, ⟨0, v⟩)) ∧
    (t < v →
      overlapWithRanges [⟨t, v⟩] (protectedRangesOf ⟨v, t, analysis, repl⟩) ≤
        OVERLAP_TOLERANCE_SEC →
      (computeTrimDecision ⟨v, t, analysis, repl⟩).map (fun d => (d.strategy, d.keepRange)) =
        .ok (.outro, ⟨0, t⟩)) ∧
    (t < v →
      OVERLAP_TOLERANCE_SEC <
        overlapWithRanges [⟨t, v⟩] (protectedRangesOf ⟨v, t, analysis, false⟩) →
      overlapWithRanges [⟨0, v - t⟩] (protectedRangesOf ⟨v, t, analysis, false⟩) ≤
        OVERLAP_TOLERANCE_SEC →
      (computeTrimDecision ⟨v, t, analysis, false⟩).map (fun d => (d.strategy, d.keepRange)) =
        .ok (.intro, ⟨v - t, v⟩)) ∧
    (t < v →
      OVERLAP_TOLERANCE_SEC <
        overlapWithRanges [⟨t, v⟩] (protectedRangesOf ⟨v, t, analysis, false⟩) →
      OVERLAP_TOLERANCE_SEC <
        overlapWithRanges [⟨0, v - t⟩] (protectedRangesOf ⟨v, t, analysis, false⟩) →
      overlapWithRanges [⟨0, (v - t) / 2⟩, ⟨v - (v - t) / 2, v⟩]
          (protectedRangesOf ⟨v, t, analysis, false⟩) ≤ OVERLAP_TOLERANCE_SEC →
      (computeTrimDecision ⟨v, t, analysis, false⟩).map (fun d => (d.strategy, d.keepRange)) =
        .ok (.intro_outro, ⟨(v - t) / 2, v - (v - t) / 2⟩)) := by
  have hmaxt : max 0 t = t := max_eq_right (le_of_lt ht)
  refine ⟨?_, ?_, ?_, ?_, ?_⟩
  · by_cases hvt : v ≤ t
    · rw [buildCandidates_noTrim v t repl hvt, if_pos hvt]
      rfl
    · push_neg at hvt
      rw [if_neg (not_le.mpr hvt)]
      cases repl with
      | true =>
        rw [buildCandidates_replacement v t (by rw [hmaxt]; exact hvt)]
        rfl
      | false =>
        rw [buildCandidates_full v t ht hvt]
        rfl
  · intro hvt h0
    rw [computeTrimDecision_of_accept v t analysis repl (by linarith) _ ?hacc]
    case hacc =>
      rw [buildCandidates_noTrim v t repl hvt]
      rw [acceptCandidate_cons_accept _ _ _ _ _ ?ho ?hw]
      case ho =>
        norm_num [overlapWithRanges, OVERLAP_TOLERANCE_SEC]
      case hw =>
        exact ⟨le_refl 0, le_refl v, hv⟩
    rfl
  · intro hvt hover
    have h0 : ¬ v - t < -(1 / 100) := by linarith
    have hacc1 : ∀ rest, acceptCandidate ⟨v, t, analysis, repl⟩ (v - t)
        (protectedRangesOf ⟨v, t, analysis, repl⟩)
        ({ strategy := .outro, keepRange := ⟨0, t⟩, trimRanges := [⟨t, v⟩],
           reasoning := ["Preferred outro trim candidate selected first."] } :: rest) =
        some (acceptedDecision ⟨v, t, analysis, repl⟩ (v - t)
          (protectedRangesOf ⟨v, t, analysis, repl⟩)
          { strategy := .outro, keepRange := ⟨0, t⟩, trimRanges := [⟨t, v⟩],
            reasoning := ["Preferred outro trim candidate selected first."] }) := by
      intro rest
      exact acceptCandidate_cons_accept _ _ _ _ _ (not_lt.mpr hover)
        ⟨le_refl 0, le_of_lt hvt, ht⟩
    cases repl with
    | true =>
      rw [computeTrimDecision_of_accept v t analysis true h0 _ ?hacc]
      case hacc =>
        rw [buildCandidates_replacement v t (by rw [hmaxt]; exact hvt), hmaxt]
        exact hacc1 []
      rfl
    | false =>
      rw [computeTrimDecision_of_accept v t analysis false h0 _ ?hacc]
      case hacc =>
        rw [buildCandidates_full v t ht hvt]
        exact hacc1 _
      rfl
  · intro hvt hover1 hover2
    have h0 : ¬ v - t < -(1 / 100) := by linarith
    have hw2 : withinDuration (⟨v - t, v⟩ : TimeRange) v :=
      ⟨by dsimp only; linarith, le_refl v, by dsimp only; linarith⟩
    have hacc : acceptCandidate ⟨v, t, analysis, false⟩ (v - t)
        (protectedRangesOf ⟨v, t, analysis, false⟩) (buildCandidates v t false) =
        some (acceptedDecision ⟨v, t, analysis, false⟩ (v - t)
          (protectedRangesOf ⟨v, t, analysis, false⟩)
          { strategy := .intro, keepRange := ⟨v - t, v⟩, trimRanges := [⟨0, v - t⟩],
            reasoning := ["No safe outro candidate found; evaluating intro trim."] }) := by
      rw [buildCandidates_full v t ht hvt]
      rw [acceptCandidate_cons_overlap _ _ _ _ _ hover1]
      exact acceptCandidate_cons_accept _ _ _ _ _ (not_lt.mpr hover2) hw2
    rw [computeTrimDecision_of_accept v t analysis false h0 _ hacc]
    rfl
  · intro hvt hover1 hover2 hover3
    have h0 : ¬ v - t < -(1 / 100) := by linarith
    have hw3 : withinDuration (⟨(v - t) / 2, v - (v - t) / 2⟩ : TimeRange) v :=
      ⟨by dsimp only; linarith, by dsimp only; linarith, by dsimp only; linarith⟩
    have hacc : acceptCandidate ⟨v, t, analysis, false⟩ (v - t)
        (protectedRangesOf ⟨v, t, analysis, false⟩) (buildCandidates v t false) =
        some (acceptedDecision ⟨v, t, analysis, false⟩ (v - t)
          (protectedRangesOf ⟨v, t, analysis, false⟩)
          { strategy := .intro_outro
            keepRange := ⟨(v - t) / 2, v - (v - t) / 2⟩
            trimRanges := [⟨0, (v - t) / 2⟩, ⟨v - (v - t) / 2, v⟩]
            reasoning := ["Balancing trim between intro and outro as secondary fallback."] }) := by
      rw [buildCandidates_full v t ht hvt]
      rw [acceptCandidate_cons_overlap _ _ _ _ _ hover1]
      rw [acceptCandidate_cons_overlap _ _ _ _ _ hover2]
      exact acceptCandidate_cons_accept _ _ _ _ _ (not_lt.mpr hover3) hw3
    rw [computeTrimDecision_of_accept v t analysis false h0 _ hacc]
    rfl

/-- Witness for C2 at the spec's own strategy-preference example: 10s video,
8s target, no speech regions, no replacement audio selects outro keeping
`[0, 8)`. -/
theorem C2_witness :
    (computeTrimDecision ⟨10, 8, ⟨[], [], [], [], []⟩, false⟩).map
        (fun d => (d.strategy, d.keepRange)) = .ok (.outro, ⟨0, 8⟩) :=
  (C2_first_accepted_candidate 10 8 ⟨[], [], [], [], []⟩ false (by norm_num)
      (by norm_num)).2.2.1 (by norm_num)
    (by norm_num [overlapWithRanges, totalOverlapLength, protectedRangesOf,
      mergeRanges, sortedRanges, OVERLAP_TOLERANCE_SEC])

/-- C3: with replacement audio, when the outro trim overlaps the merged
protected speech ranges by more than the 0.02s tolerance, `computeTrimDecision`
throws `NO_SYNC_SAFE_CUT`. -/
theorem C3_replacement_requires_sync_safe_cut (v t : ℚ) (analysis : AnalysisResult)
    (h : OVERLAP_TOLERANCE_SEC <
      overlapWithRanges [⟨max 0 t, v⟩] (protectedRangesOf ⟨v, t, analysis, true⟩)) :
    computeTrimDecision ⟨v, t, analysis, true⟩ = .error .NO_SYNC_SAFE_CUT := by
  have hpos : (0 : ℚ) < OVERLAP_TOLERANCE_SEC := by norm_num [OVERLAP_TOLERANCE_SEC]
  have hnd : max 0 t < v := by
    by_contra hle
    push_neg at hle
    have := totalOverlapLength_nonpos ⟨max 0 t, v⟩
      (protectedRangesOf ⟨v, t, analysis, true⟩) hle
    rw [overlapWithRanges_singleton] at h
    linarith
  have hvt : t < v := lt_of_le_of_lt (le_max_right 0 t) hnd
  have h0 : ¬ v - t < -(1 / 100) := by linarith
  refine computeTrimDecision_of_none_repl v t analysis h0 ?_
  rw [buildCandidates_replacement v t hnd]
  rw [acceptCandidate_cons_overlap _ _ _ _ _ h]
  rfl

/-- Witness for C3 at the spec's example: 10s video, 8s target, replacement
audio, speech spanning `[7.4, 10)`; the outro trim `[8, 10)` overlaps the
padded protected range `[7.05, 10)` by 2s. -/
theorem C3_witness :
    computeTrimDecision ⟨10, 8, ⟨[⟨37 / 5, 10⟩], [], [], [], []⟩, true⟩ =
      .error .NO_SYNC_SAFE_CUT :=
  C3_replacement_requires_sync_safe_cut 10 8 ⟨[⟨37 / 5, 10⟩], [], [], [], []⟩
    (by norm_num [overlapWithRanges, totalOverlapLength, protectedRangesOf,
      mergeRanges, sortedRanges, List.insertionSort, normalizeRange, expandRange,
      SPEECH_PADDING_SEC, OVERLAP_TOLERANCE_SEC, intersectionLength, overlaps,
      mergeLoop])

/-- Witness for C8 at a concrete input: one speech region `[2, 3]` in a 10s
video expands to `[1.65, 3.35]` and is covered by a returned protected range. -/
theorem C8_witness :
    ∃ o ∈ protectedRangesOf ⟨10, 8, ⟨[⟨2, 3⟩], [], [], [], []⟩, false⟩,
      o.startSec ≤ (expandRange ⟨2, 3⟩ SPEECH_PADDING_SEC 10).startSec ∧
      (expandRange ⟨2, 3⟩ SPEECH_PADDING_SEC 10).endSec ≤ o.endSec :=
  (C8_protectedRanges_spec ⟨10, 8, ⟨[⟨2, 3⟩], [], [], [], []⟩, false⟩).2.2.2.2
    ⟨2, 3⟩ (by decide) (by norm_num [expandRange, SPEECH_PADDING_SEC])

/-- C4: `validateOverrideRange` rejects with `INVALID_OVERRIDE_RANGE` exactly
when the range violates the bounds, positivity, or 0.25s duration-tolerance
checks; when none of those hold and the tail-only rule does not apply, the
range is accepted. -/
theorem C4_validateOverrideRange_invalid_iff (job : JobRecordView) (keepRange : TimeRange) :
    (validateOverrideRange job keepRange = some .INVALID_OVERRIDE_RANGE ↔
      (keepRange.startSec < 0 ∨ job.videoDurationSec < keepRange.endSec ∨
        keepRange.endSec ≤ keepRange.startSec ∨
        1 / 4 < |keepRange.endSec - keepRange.startSec - job.targetDurationSec|)) ∧
    (¬ (keepRange.startSec < 0 ∨ job.videoDurationSec < keepRange.endSec ∨
        keepRange.endSec ≤ keepRange.startSec ∨
        1 / 4 < |keepRange.endSec - keepRange.startSec - job.targetDurationSec|) →
      ¬ (strTruthy job.replacementAudioPath ∧ 1 / 1000 < keepRange.startSec) →
      validateOverrideRange job keepRange = none) := by
  unfold validateOverrideRange
  split_ifs with h1 h2 h3 h4
  · refine ⟨⟨fun _ => h1.elim Or.inl (fun hb => Or.inr (Or.inl hb)), fun _ => rfl⟩, ?_⟩
    intro hn _
    exact absurd (h1.elim Or.inl (fun hb => Or.inr (Or.inl hb))) hn
  · refine ⟨⟨fun _ => Or.inr (Or.inr (Or.inl h2)), fun _ => rfl⟩, ?_⟩
    intro hn _
    exact absurd (Or.inr (Or.inr (Or.inl h2))) hn
  · refine ⟨⟨fun _ => Or.inr (Or.inr (Or.inr h3)), fun _ => rfl⟩, ?_⟩
    intro hn _
    exact absurd (Or.inr (Or.inr (Or.inr h3))) hn
  · refine ⟨⟨fun h => absurd h (by simp), fun h => ?_⟩, fun _ hn => absurd h4 hn⟩
    rcases h with h | h | h | h
    · exact absurd h (by tauto)
    · exact absurd h (by tauto)
    · exact absurd h h2
    · exact absurd h h3
  · refine ⟨⟨fun h => absurd h (by simp), fun h => ?_⟩, fun _ _ => rfl⟩
    rcases h with h | h | h | h
    · exact absurd h (by tauto)
    · exact absurd h (by tauto)
    · exact absurd h h2
    · exact absurd h h3

/-- Witness for C4 at the spec's examples (`videoDurationSec=10`,
`targetDurationSec=8`, no replacement audio): `{-1, 8}` and `{1, 8}` are
rejected with `INVALID_OVERRIDE_RANGE`, `{0, 8}` is accepted. -/
theorem C4_witness :
    validateOverrideRange ⟨10, 8, none⟩ ⟨-1, 8⟩ = some .INVALID_OVERRIDE_RANGE ∧
    validateOverrideRange ⟨10, 8, none⟩ ⟨1, 8⟩ = some .INVALID_OVERRIDE_RANGE ∧
    validateOverrideRange ⟨10, 8, none⟩ ⟨0, 8⟩ = none := by
  refine ⟨?_, ?_, ?_⟩
  · exact (C4_validateOverrideRange_invalid_iff ⟨10, 8, none⟩ ⟨-1, 8⟩).1.mpr
      (Or.inl (by norm_num))
  · exact (C4_validateOverrideRange_invalid_iff ⟨10, 8, none⟩ ⟨1, 8⟩).1.mpr
      (Or.inr (Or.inr (Or.inr (by norm_num))))
  · exact (C4_validateOverrideRange_invalid_iff ⟨10, 8, none⟩ ⟨0, 8⟩).2
      (by norm_num) (by simp [strTruthy])

/-- C5 counterexample: replacement audio attached and `startSec = 0.5 > 0.001`,
but the keep range `[0.5, 11)` exceeds the 10s video bounds, so both
`validateOverrideRange` and `renderVideo` reject with
`INVALID_OVERRIDE_RANGE`, not `NO_SYNC_SAFE_CUT` as the claim asserts for
every such range. -/
theorem C5_counterexample :
    validateOverrideRange ⟨10, 8, some "audio.wav"⟩ ⟨1 / 2, 11⟩ =
      some .INVALID_OVERRIDE_RANGE ∧
    renderVideo ⟨some "audio.wav", ⟨1 / 2, 11⟩, 10, 8⟩ ⟨0, true, 8⟩ =
      .error .INVALID_OVERRIDE_RANGE ∧
    (1 / 1000 : ℚ) < 1 / 2 ∧
    ErrorCode.INVALID_OVERRIDE_RANGE ≠ ErrorCode.NO_SYNC_SAFE_CUT := by
  refine ⟨?_, ?_, by norm_num, by simp⟩
  · unfold validateOverrideRange
    rw [if_pos (Or.inr (by norm_num))]
  · unfold renderVideo
    rw [if_pos (Or.inr (by norm_num))]

/-- C5 (amended): with a truthy replacement audio track and
`startSec > 0.001`, both `validateOverrideRange` and `renderVideo` fail with
`NO_SYNC_SAFE_CUT` for every keep range that passes the earlier bounds and
positivity checks (for the override validator also the duration tolerance);
`renderVideo` rejects before consulting the encoder outcome, i.e. for every
encoder run. Ranges failing the earlier checks fail with
`INVALID_OVERRIDE_RANGE` instead. -/
theorem C5_tail_only_rule :
    (∀ (job : JobRecordView) (keepRange : TimeRange),
      strTruthy job.replacementAudioPath = true →
      1 / 1000 < keepRange.startSec →
      0 ≤ keepRange.startSec →
      keepRange.endSec ≤ job.videoDurationSec →
      keepRange.startSec < keepRange.endSec →
      |keepRange.endSec - keepRange.startSec - job.targetDurationSec| ≤ 1 / 4 →
      validateOverrideRange job keepRange = some .NO_SYNC_SAFE_CUT) ∧
    (∀ (options : RenderOptions) (run : EncoderRun),
      strTruthy options.replacementAudioPath = true →
      1 / 1000 < options.keepRange.startSec →
      0 ≤ options.keepRange.startSec →
      options.keepRange.endSec ≤ options.videoDurationSec →
      options.keepRange.startSec < options.keepRange.endSec →
      renderVideo options run = .error .NO_SYNC_SAFE_CUT) := by
  constructor
  · intro job keepRange htruthy hstart h1 h2 h3 h4
    unfold validateOverrideRange
    rw [if_neg (by push_neg; exact ⟨by linarith, h2⟩)]
    rw [if_neg (not_le.mpr h3)]
    rw [if_neg (not_lt.mpr h4)]
    rw [if_pos ⟨htruthy, hstart⟩]
  · intro options run htruthy hstart h1 h2 h3
    unfold renderVideo
    rw [if_neg (by push_neg; exact ⟨by linarith, h2⟩)]
    rw [if_neg (not_le.mpr h3)]
    rw [if_pos ⟨htruthy, hstart⟩]

/-- Witness for C5 at the spec's example: keep range `[0.5, 8.5)` with target
8 passes every bounds and duration check, yet both validators reject it with
`NO_SYNC_SAFE_CUT`; the render rejection is independent of the encoder
outcome (here a failed run). -/
theorem C5_witness :
    validateOverrideRange ⟨10, 8, some "audio.wav"⟩ ⟨1 / 2, 17 / 2⟩ =
      some .NO_SYNC_SAFE_CUT ∧
    renderVideo ⟨some "audio.wav", ⟨1 / 2, 17 / 2⟩, 10, 8⟩ ⟨1, false, 0⟩ =
      .error .NO_SYNC_SAFE_CUT := by
  constructor
  · exact C5_tail_only_rule.1 ⟨10, 8, some "audio.wav"⟩ ⟨1 / 2, 17 / 2⟩
      rfl (by norm_num) (by norm_num) (by norm_num) (by norm_num) (by norm_num)
  · exact C5_tail_only_rule.2 ⟨some "audio.wav", ⟨1 / 2, 17 / 2⟩, 10, 8⟩ ⟨1, false, 0⟩
      rfl (by norm_num) (by norm_num) (by norm_num) (by norm_num)

/-- C6: `renderVideo` never returns success for an output whose probed
duration is outside the 0.25s tolerance of the target - every successful
result reports the probed duration, within tolerance; and when the range
checks pass, the encoder exits zero and the output exists but the probed
duration violates the tolerance, the result is `RENDER_FAILED`. -/
theorem C6_render_output_tolerance :
    (∀ (options : RenderOptions) (run : EncoderRun) (r : RenderResult),
      renderVideo options run = .ok r →
      r.durationSec = run.probedDurationSec ∧
      |r.durationSec - options.targetDurationSec| ≤ 1 / 4) ∧
    (∀ (options : RenderOptions) (run : EncoderRun),
      0 ≤ options.keepRange.startSec →
      options.keepRange.endSec ≤ options.videoDurationSec →
      options.keepRange.startSec < options.keepRange.endSec →
      ¬ (strTruthy options.replacementAudioPath ∧ 1 / 1000 < options.keepRange.startSec) →
      run.exitCode = 0 → run.outputExists = true →
      1 / 4 < |run.probedDurationSec - options.targetDurationSec| →
      renderVideo options run = .error .RENDER_FAILED) := by
  constructor
  · intro options run r h
    unfold renderVideo at h
    split_ifs at h with h1 h2 h3 h4 h5 h6
    injection h with h'
    rw [← h']
    exact ⟨rfl, not_lt.mp h6⟩
  · intro options run h1 h2 h3 h4 h5 h6 h7
    unfold renderVideo
    rw [if_neg (by push_neg; exact ⟨by linarith, h2⟩)]
    rw [if_neg (not_le.mpr h3)]
    rw [if_neg h4]
    rw [if_neg (by simp [h5])]
    rw [if_neg (by simp [h6])]
    rw [if_pos h7]

/-- Witness for C6: keep `[0, 8)` of a 10s video, no replacement audio; a
clean encoder run probing 8s succeeds within tolerance, while one probing 9s
fails with `RENDER_FAILED`. -/
theorem C6_witness :
    ((9 : ℚ) = (⟨(9 : ℚ)⟩ : RenderResult).durationSec) ∧
    renderVideo ⟨none, ⟨0, 8⟩, 10, 8⟩ ⟨0, true, 9⟩ = .error .RENDER_FAILED := by
  refine ⟨rfl, ?_⟩
  exact C6_render_output_tolerance.2 ⟨none, ⟨0, 8⟩, 10, 8⟩ ⟨0, true, 9⟩
    (by norm_num) (by norm_num) (by norm_num) (by simp [strTruthy])
    rfl rfl (by norm_num)

/-- C7: `createJob` fails the job with `AUDIO_LONGER_THAN_VIDEO` and submits
no analysis task exactly when replacement audio is present and
`deltaSec = videoDurationSec - targetDurationSec ≤ 0`; every other upload
stays `queued` with exactly one analysis task enqueued. -/
theorem C7_createJob_gates_analysis (probe : UploadProbe) :
    (createJob probe).targetDurationSec =
      probe.replacementAudioDurationSec.getD probe.videoDurationSec ∧
    (createJob probe).deltaSec =
      probe.videoDurationSec - (createJob probe).targetDurationSec ∧
    (probe.replacementAudioDurationSec.isSome = true ∧ (createJob probe).deltaSec ≤ 0 →
      (createJob probe).status = .failed ∧
      (createJob probe).errorCode = some .AUDIO_LONGER_THAN_VIDEO ∧
      (createJob probe).analysisTasksEnqueued = 0) ∧
    (¬ (probe.replacementAudioDurationSec.isSome = true ∧ (createJob probe).deltaSec ≤ 0) →
      (createJob probe).status = .queued ∧
      (createJob probe).errorCode = none ∧
      (createJob probe).analysisTasksEnqueued = 1) := by
  simp only [createJob]
  split_ifs with h
  · exact ⟨rfl, rfl, fun _ => ⟨rfl, rfl, rfl⟩, fun hn => absurd ⟨h.1, h.2⟩ hn⟩
  · exact ⟨rfl, rfl, fun hc => absurd hc h, fun _ => ⟨rfl, rfl, rfl⟩⟩

/-- Witness for C7: a 10s video with 12s replacement audio is failed with
`AUDIO_LONGER_THAN_VIDEO` and nothing is enqueued; with 8s replacement audio
(or none) the job stays queued with one analysis task. -/
theorem C7_witness :
    (createJob ⟨10, some 12⟩).status = .failed ∧
    (createJob ⟨10, some 12⟩).errorCode = some .AUDIO_LONGER_THAN_VIDEO ∧
    (createJob ⟨10, some 12⟩).analysisTasksEnqueued = 0 ∧
    (createJob ⟨10, some 8⟩).status = .queued ∧
    (createJob ⟨10, some 8⟩).analysisTasksEnqueued = 1 ∧
    (createJob ⟨10, none⟩).status = .queued ∧
    (createJob ⟨10, none⟩).analysisTasksEnqueued = 1 := by
  have h1 := (C7_createJob_gates_analysis ⟨10, some 12⟩).2.2.1
    (by constructor
        · rfl
        · rw [(C7_createJob_gates_analysis ⟨10, some 12⟩).2.1,
            (C7_createJob_gates_analysis ⟨10, some 12⟩).1]
          norm_num)
  have h2 := (C7_createJob_gates_analysis ⟨10, some 8⟩).2.2.2
    (by rintro ⟨-, habs⟩
        rw [(C7_createJob_gates_analysis ⟨10, some 8⟩).2.1,
          (C7_createJob_gates_analysis ⟨10, some 8⟩).1] at habs
        norm_num at habs)
  have h3 := (C7_createJob_gates_analysis ⟨10, none⟩).2.2.2 (by rintro ⟨habs, -⟩; simp at habs)
  exact ⟨h1.1, h1.2.1, h1.2.2, h2.1, h2.2.2, h3.1, h3.2.2⟩

theorem sseFold_emits_unattached {α : Type} (l : List α) (h rec : List α) :
    (l.map SseOp.emit).foldl sseStep { history := h, attached := false, received := rec } =
      { history := h ++ l, attached := false, received := rec } := by
  induction l generalizing h with
  | nil => simp
  | cons e rest ih =>
    simp only [List.map_cons, List.foldl_cons, sseStep, Bool.false_eq_true, if_false,
      List.append_nil]
    rw [ih (h ++ [e])]
    simp

theorem sseFold_emits_attached {α : Type} (l : List α) (h rec : List α) :
    (l.map SseOp.emit).foldl sseStep { history := h, attached := true, received := rec } =
      { history := h ++ l, attached := true, received := rec ++ l } := by
  induction l generalizing h rec with
  | nil => simp
  | cons e rest ih =>
    simp only [List.map_cons, List.foldl_cons, sseStep, if_true]
    rw [ih (h ++ [e]) (rec ++ [e])]
    simp

/-- C10: for every placement of the observer's attach among a job's event
emissions, the observer's stream is exactly the job's full event sequence -
the durable history at the attach instant replayed first, then each later
event exactly once, in emission order: no gaps and no duplicates. The attach
handler (`addClient` then the synchronous history replay, server.ts) and
`emitAndPersistEvent` (durable insert then live publish, job-service.ts) each
run to completion on the Node.js event loop, so each is one atomic `sseStep`
and the schedules below are exactly the interleavings the runtime admits. -/
theorem C10_attach_replays_history_then_live {α : Type} (pre post : List α) :
    (sseRun ((pre.map SseOp.emit) ++ [SseOp.attach] ++ (post.map SseOp.emit))).received =
      pre ++ post ∧
    (sseRun ((pre.map SseOp.emit) ++ [SseOp.attach] ++ (post.map SseOp.emit))).history =
      pre ++ post := by
  have hrun : sseRun ((pre.map SseOp.emit) ++ [SseOp.attach] ++ (post.map SseOp.emit)) =
      { history := pre ++ post, attached := true, received := pre ++ post } := by
    unfold sseRun
    rw [List.foldl_append, List.foldl_append]
    rw [sseFold_emits_unattached pre [] []]
    simp only [List.foldl_cons, List.foldl_nil, sseStep, List.nil_append]
    rw [sseFold_emits_attached post pre pre]
  rw [hrun]
  exact ⟨rfl, rfl⟩

end Syncy
